import Mathlib

/-!
Shallow embedding of Graphine's base graph representation (`src/graph/base.py`)
and proofs about it.

Modelling conventions:
* Python `dict`s (insertion-ordered, unique keys) are association lists
  `List (Int × α)`; assignment updates in place or appends, deletion removes
  the entry.
* Python `set`s are `List Int` kept duplicate-free by the `set.add` guard;
  iteration order is the list order (an arbitrary but fixed set order).
* The `collections.deque` free lists append on the right and `pop()` removes
  from the right.
* `collections.defaultdict(set)` subscript reads create an empty entry for a
  missing key (`ddEnsure`); `.get(k, set())` does not (`ddGet`).
* Python exceptions are an `Err` value paired with the state at the moment of
  the raise, so partially-applied mutations stay observable.
* Attribute values are an arbitrary type `V` with decidable equality.
-/

namespace Graphine

/-- Python exception kinds raised by the code paths modelled here. -/
inductive Err : Type where
  | typeError : Err
  | keyError : Err
  | valueError : Err
  | attributeError : Err
deriving DecidableEq, Repr

/-- `d[k]` lookup on an association-list dictionary. -/
def assocFind {α : Type} (m : List (Int × α)) (k : Int) : Option α :=
  match m with
  | [] => none
  | (k2, v) :: rest => if k = k2 then some v else assocFind rest k

/-- `d[k] = v`: replace in place when the key exists, else append. -/
def assocSet {α : Type} (m : List (Int × α)) (k : Int) (v : α) : List (Int × α) :=
  match m with
  | [] => [(k, v)]
  | (k2, v2) :: rest => if k = k2 then (k2, v) :: rest else (k2, v2) :: assocSet rest k v

/-- `del d[k]` (no-op when the key is absent, for `try/except` deletes). -/
def assocErase {α : Type} (m : List (Int × α)) (k : Int) : List (Int × α) :=
  match m with
  | [] => []
  | (k2, v2) :: rest => if k = k2 then rest else (k2, v2) :: assocErase rest k

/-- String-keyed lookup for attribute records and kwargs. -/
def slookup {V : Type} (m : List (String × V)) (k : String) : Option V :=
  match m with
  | [] => none
  | (k2, v) :: rest => if k = k2 then some v else slookup rest k

/-- `defaultdict(set)` subscript read: ensure an entry exists for the key. -/
def ddEnsure (m : List (Int × List Int)) (k : Int) : List (Int × List Int) :=
  match assocFind m k with
  | some _ => m
  | none => m ++ [(k, [])]

/-- `d.get(k, set())`: read without creating an entry. -/
def ddGet (m : List (Int × List Int)) (k : Int) : List Int :=
  (assocFind m k).getD []

/-- `s.add(x)` on a Python set. -/
def setAdd (s : List Int) (x : Int) : List Int :=
  if x ∈ s then s else s ++ [x]

/-- `self.adjacency_list[start].add(uid)`: defaultdict read then set add. -/
def adjAdd (m : List (Int × List Int)) (start uid : Int) : List (Int × List Int) :=
  let m1 := ddEnsure m start
  assocSet m1 start (setAdd (ddGet m1 start) uid)

/-- `self.adjacency_list[start].remove(uid)`: defaultdict read then set
remove; `set.remove` raises `KeyError` when the element is absent.  The
returned map reflects the entry the defaultdict read created even on error. -/
def adjRemove (m : List (Int × List Int)) (start uid : Int) :
    Except Err Unit × List (Int × List Int) :=
  let m1 := ddEnsure m start
  let s := ddGet m1 start
  if uid ∈ s then (Except.ok (), assocSet m1 start (s.erase uid))
  else (Except.error Err.keyError, m1)

/-- A node record: the tuple of declared attribute values, in schema order. -/
structure Node (V : Type) : Type where
  attrs : List (String × V)
deriving DecidableEq, Repr

/-- An edge record: required `start`/`end` endpoints plus declared attributes. -/
structure Edge (V : Type) : Type where
  start : Int
  «end» : Int
  attrs : List (String × V)
deriving DecidableEq, Repr

/-- The `Graph` state: schemas, the two entity stores, the adjacency index and
the two uid free lists, exactly the attributes set up by `Graph.__init__`. -/
structure Graph (V : Type) : Type where
  nodeProps : List String
  edgeProps : List String
  nodes : List (Int × Node V)
  edges : List (Int × Edge V)
  adjacency_list : List (Int × List Int)
  unused_node_uids : List Int
  unused_edge_uids : List Int
deriving DecidableEq, Repr

/-- `Graph(node_properties, edge_properties)`: everything starts empty. -/
def Graph.empty {V : Type} (np ep : List String) : Graph V :=
  ⟨np, ep, [], [], [], [], []⟩

variable {V : Type} [DecidableEq V]

/-- `self.Node(**kwargs)` / `self.Edge(..., **kwargs)` construction of the
declared-attribute part: the supplied names must cover the schema exactly
(missing or unexpected keyword arguments raise `TypeError`). -/
def build_record (props : List String) (kwargs : List (String × V)) :
    Option (List (String × V)) :=
  if (∀ p ∈ props, (slookup kwargs p).isSome) ∧ (∀ kv ∈ kwargs, kv.1 ∈ props) then
    some (props.filterMap fun p => (slookup kwargs p).map fun v => (p, v))
  else none

/-- `record._replace(**kwargs)` on the declared attributes: a keyword argument
not among the record's fields raises `ValueError`; mentioned fields get the
new value, unmentioned fields keep theirs. -/
def replace_attrs (fields : List String) (attrs kwargs : List (String × V)) :
    Option (List (String × V)) :=
  if ∀ kv ∈ kwargs, kv.1 ∈ fields then
    some (attrs.map fun pv =>
      match slookup kwargs pv.1 with
      | some v => (pv.1, v)
      | none => pv)
  else none

/-- `get_node_uid`: pop the node free list (right end), else `len(nodes)+1`. -/
def get_node_uid (g : Graph V) : Int × Graph V :=
  match g.unused_node_uids.getLast? with
  | some uid => (uid, { g with unused_node_uids := g.unused_node_uids.dropLast })
  | none => ((g.nodes.length : Int) + 1, g)

/-- `get_edge_uid`: pop the edge free list (right end), else `-len(edges)-1`. -/
def get_edge_uid (g : Graph V) : Int × Graph V :=
  match g.unused_edge_uids.getLast? with
  | some uid => (uid, { g with unused_edge_uids := g.unused_edge_uids.dropLast })
  | none => (-(g.edges.length : Int) - 1, g)

/-- `add_node(**kwargs)`: the uid is allocated before the record is
validated, so on a schema mismatch the popped free-list uid stays consumed. -/
def add_node (g : Graph V) (kwargs : List (String × V)) : Except Err Int × Graph V :=
  let p := get_node_uid g
  match build_record p.2.nodeProps kwargs with
  | none => (Except.error Err.typeError, p.2)
  | some attrs => (Except.ok p.1, { p.2 with nodes := assocSet p.2.nodes p.1 ⟨attrs⟩ })

/-- `add_edge(start, end, **kwargs)`: allocate, build, store, index. -/
def add_edge (g : Graph V) (start end_ : Int) (kwargs : List (String × V)) :
    Except Err Int × Graph V :=
  let p := get_edge_uid g
  match build_record p.2.edgeProps kwargs with
  | none => (Except.error Err.typeError, p.2)
  | some attrs =>
    let g2 := { p.2 with edges := assocSet p.2.edges p.1 ⟨start, end_, attrs⟩ }
    (Except.ok p.1, { g2 with adjacency_list := adjAdd g2.adjacency_list start p.1 })

/-- `__setitem__`, `uid > 0` branch: plain store into the node dict. -/
def setitem_node (g : Graph V) (uid : Int) (value : Node V) : Graph V :=
  { g with nodes := assocSet g.nodes uid value }

/-- `__setitem__`, edge branch: when the stored edge's `start` equals the new
record's `start` the record is stored; otherwise only the adjacency index is
rewired and the record is never written to the edge store (`is` on the
endpoint identifiers is modelled as equality). -/
def setitem_edge (g : Graph V) (uid : Int) (value : Edge V) :
    Except Err Unit × Graph V :=
  match assocFind g.edges uid with
  | none => (Except.error Err.keyError, g)
  | some e =>
    if e.start = value.start then
      (Except.ok (), { g with edges := assocSet g.edges uid value })
    else
      match adjRemove g.adjacency_list e.start uid with
      | (Except.error er, m1) => (Except.error er, { g with adjacency_list := m1 })
      | (Except.ok _, m1) =>
        (Except.ok (), { g with adjacency_list := adjAdd m1 value.start uid })

/-- `modify_node(uid, **kwargs)`: fetch via `__getitem__` (sign dispatch),
`_replace`, store via `__setitem__`.  A negative uid resolves to an edge and
follows the edge branch of `__setitem__` (the declared-attribute update
leaves `start` unchanged, so the record is stored). -/
def modify_node (g : Graph V) (uid : Int) (kwargs : List (String × V)) :
    Except Err Int × Graph V :=
  if uid > 0 then
    match assocFind g.nodes uid with
    | none => (Except.error Err.keyError, g)
    | some n =>
      match replace_attrs g.nodeProps n.attrs kwargs with
      | none => (Except.error Err.valueError, g)
      | some a => (Except.ok uid, setitem_node g uid ⟨a⟩)
  else
    match assocFind g.edges uid with
    | none => (Except.error Err.keyError, g)
    | some e =>
      match replace_attrs g.edgeProps e.attrs kwargs with
      | none => (Except.error Err.valueError, g)
      | some a =>
        match setitem_edge g uid { e with attrs := a } with
        | (Except.error er, g1) => (Except.error er, g1)
        | (Except.ok _, g1) => (Except.ok uid, g1)

/-- `modify_edge(uid, **kwargs)`: the kwargs are split into the optional
`start`/`end` replacements and the declared-attribute updates.  After
`self[uid] = e` has already rewired the adjacency index on a `start` change,
the trailing relocation block removes the uid from the old start's entry a
second time.  On a positive uid, `self[uid]` is a node: `_replace` with a
`start`/`end` key raises `ValueError`; otherwise the node is stored and
`old_edge.start` then raises `AttributeError`. -/
def modify_edge (g : Graph V) (uid : Int) (ns ne : Option Int)
    (kwargs : List (String × V)) : Except Err Int × Graph V :=
  if uid > 0 then
    match assocFind g.nodes uid with
    | none => (Except.error Err.keyError, g)
    | some n =>
      match ns, ne, replace_attrs g.nodeProps n.attrs kwargs with
      | none, none, some a => (Except.error Err.attributeError, setitem_node g uid ⟨a⟩)
      | _, _, _ => (Except.error Err.valueError, g)
  else
    match assocFind g.edges uid with
    | none => (Except.error Err.keyError, g)
    | some old_edge =>
      match replace_attrs g.edgeProps old_edge.attrs kwargs with
      | none => (Except.error Err.valueError, g)
      | some a =>
        let e : Edge V := ⟨ns.getD old_edge.start, ne.getD old_edge.«end», a⟩
        match setitem_edge g uid e with
        | (Except.error er, g1) => (Except.error er, g1)
        | (Except.ok _, g1) =>
          if old_edge.start = e.start then (Except.ok uid, g1)
          else
            match adjRemove g1.adjacency_list old_edge.start uid with
            | (Except.error er, m1) =>
              (Except.error er, { g1 with adjacency_list := m1 })
            | (Except.ok _, m1) =>
              (Except.ok uid, { g1 with adjacency_list := adjAdd m1 e.start uid })

/-- `remove_node(uid)`: pop the store entry, discard the adjacency entry
(`try/except pass`), recycle the uid, return the record. -/
def remove_node (g : Graph V) (uid : Int) : Except Err (Node V) × Graph V :=
  match assocFind g.nodes uid with
  | none => (Except.error Err.keyError, g)
  | some n =>
    (Except.ok n,
      { g with
        nodes := assocErase g.nodes uid
        adjacency_list := assocErase g.adjacency_list uid
        unused_node_uids := g.unused_node_uids ++ [uid] })

/-- `remove_edge(uid)`: pop the store entry, remove the uid from the popped
record's start entry (a `KeyError` there leaves the edge already evicted and
the uid unrecycled), recycle the uid, return the record. -/
def remove_edge (g : Graph V) (uid : Int) : Except Err (Edge V) × Graph V :=
  match assocFind g.edges uid with
  | none => (Except.error Err.keyError, g)
  | some e =>
    let g1 := { g with edges := assocErase g.edges uid }
    match adjRemove g1.adjacency_list e.start uid with
    | (Except.error er, m1) => (Except.error er, { g1 with adjacency_list := m1 })
    | (Except.ok _, m1) =>
      (Except.ok e,
        { g1 with
          adjacency_list := m1
          unused_edge_uids := g1.unused_edge_uids ++ [uid] })

/-- `getattr(node, k)` for a node record (`AttributeError` when `k` is not a
field, signalled as `none`). -/
def getattr_node (n : Node V) (k : String) : Option V :=
  slookup n.attrs k

/-- The value of an edge attribute as seen by `getattr`: the required
endpoint fields hold identifiers, the declared fields hold `V` values. -/
inductive EVal (V : Type) : Type where
  | I : Int → EVal V
  | A : V → EVal V
deriving DecidableEq, Repr

/-- `getattr(edge, k)`: `start`, `end`, or a declared attribute. -/
def getattr_edge (e : Edge V) (k : String) : Option (EVal V) :=
  if k = "start" then some (EVal.I e.start)
  else if k = "end" then some (EVal.I e.«end»)
  else (slookup e.attrs k).map EVal.A

/-- `search_nodes(**kwargs)`: for each live record in store order, for each
supplied attribute in turn, the record is yielded whenever that attribute's
value matches (so a record is yielded once per matching attribute).  A
supplied name that is not a node field raises `AttributeError`. -/
def search_nodes (g : Graph V) (kwargs : List (String × V)) :
    Except Err (List (Node V)) :=
  if ∀ kv ∈ kwargs, kv.1 ∈ g.nodeProps then
    Except.ok ((g.nodes.map Prod.snd).flatMap fun n =>
      kwargs.filterMap fun kv =>
        if getattr_node n kv.1 = some kv.2 then some n else none)
  else Except.error Err.attributeError

/-- `search_edges(**kwargs)`: identical scan over the edge store; the
supplied names may also be the required `start`/`end` fields. -/
def search_edges (g : Graph V) (kwargs : List (String × EVal V)) :
    Except Err (List (Edge V)) :=
  if ∀ kv ∈ kwargs, kv.1 = "start" ∨ kv.1 = "end" ∨ kv.1 ∈ g.edgeProps then
    Except.ok ((g.edges.map Prod.snd).flatMap fun e =>
      kwargs.filterMap fun kv =>
        if getattr_edge e kv.1 = some kv.2 then some e else none)
  else Except.error Err.attributeError

/-- `get_adjacent_uids(uid)`: the uid itself, then the `end` of every edge
listed in its adjacency entry (read with `.get(uid, set())`). -/
def get_adjacent_uids (g : Graph V) (uid : Int) : List Int :=
  uid :: (ddGet g.adjacency_list uid).filterMap fun edge_uid =>
    (assocFind g.edges edge_uid).map Edge.«end»

/-- `self.adjacency_list(uid)` in `get_outgoing_uids` calls the defaultdict
as a function, which raises `TypeError` unconditionally. -/
def dictCall (m : List (Int × List Int)) (uid : Int) : Except Err (List Int) :=
  Except.error Err.typeError

/-- `get_outgoing_uids(uid)`: iterates `self.adjacency_list(uid)`. -/
def get_outgoing_uids (g : Graph V) (uid : Int) : Except Err (List Int) :=
  dictCall g.adjacency_list uid

/-- `get_outgoing_edges(uid)`: maps `self[uid]` over `get_outgoing_uids`. -/
def get_outgoing_edges (g : Graph V) (uid : Int) : Except Err (List (Edge V)) :=
  match get_outgoing_uids g uid with
  | Except.error er => Except.error er
  | Except.ok uids =>
    Except.ok (uids.filterMap fun u => (assocFind g.edges u).map id)

/-- One `while unvisited:` iteration body of `a_star_traversal`, fuelled.
`pickBack = true` is the `s.pop()` selector (depth-first), `false` is
`s.popleft()` (breadth-first).  Successors are appended one at a time, each
checked against the current frontier and visited record. -/
def a_star_loop (g : Graph V) (pickBack : Bool) :
    Nat → List Int → List Int → List Int
  | 0, _, _ => []
  | _ + 1, [], _ => []
  | fuel + 1, h :: t, visited =>
    let next_uid := if pickBack then (h :: t).getLast (List.cons_ne_nil h t) else h
    let rest := if pickBack then (h :: t).dropLast else t
    let visited2 := visited ++ [next_uid]
    let unvisited2 := (get_adjacent_uids g next_uid).foldl
      (fun acc uid => if uid ∈ acc ∨ uid ∈ visited2 then acc else acc ++ [uid]) rest
    next_uid :: a_star_loop g pickBack fuel unvisited2 visited2

/-- Every identifier a traversal can ever touch: the root plus the `end` of
every stored edge. -/
def traversal_universe (g : Graph V) (root : Int) : Finset Int :=
  insert root (g.edges.map fun p => p.2.«end»).toFinset

/-- Fuel that outlasts the loop: the universe's size plus one. -/
def traversal_fuel (g : Graph V) (root : Int) : Nat :=
  (traversal_universe g root).card + 1

/-- `a_star_traversal(root, selector)` with the given selector, run to
completion (the Python loop runs until the frontier drains; the fuel is an
upper bound on the number of iterations, proved never to be exhausted). -/
def a_star_traversal (g : Graph V) (pickBack : Bool) (root : Int) : List Int :=
  a_star_loop g pickBack (traversal_fuel g root) [root] []

/-- `depth_first_traversal(root)`: the `lambda s: s.pop()` selector. -/
def depth_first_traversal (g : Graph V) (root : Int) : List Int :=
  a_star_traversal g true root

/-- `breadth_first_traversal(root)`: the `lambda s: s.popleft()` selector. -/
def breadth_first_traversal (g : Graph V) (root : Int) : List Int :=
  a_star_traversal g false root

/-- `generate_subgraph` node phase: for each supplied uid in order, fetch the
record (`KeyError` when absent), keep its declared attributes and add a node
to the new graph. -/
def subgraph_add_nodes (src : Graph V) : Graph V → List Int → Except Err (Graph V)
  | gNew, [] => Except.ok gNew
  | gNew, n :: rest =>
    match assocFind src.nodes n with
    | none => Except.error Err.keyError
    | some nd =>
      let props := nd.attrs.filter fun pv => pv.1 ∈ src.nodeProps
      match add_node gNew props with
      | (Except.error er, _) => Except.error er
      | (Except.ok _, g2) => subgraph_add_nodes src g2 rest

/-- `generate_subgraph` edge phase, inner loop: every edge uid in one
adjacency entry; when both endpoints lie in the node set the edge's declared
attributes are copied and the edge is added between `e["start"]` and
`e["end"]` — the original endpoint identifiers. -/
def subgraph_edges_for (src : Graph V) (node_set : List Int) :
    Graph V → List Int → Except Err (Graph V)
  | gNew, [] => Except.ok gNew
  | gNew, eid :: rest =>
    match assocFind src.edges eid with
    | none => Except.error Err.keyError
    | some e =>
      let props := e.attrs.filter fun pv => pv.1 ∈ src.edgeProps
      if e.start ∈ node_set then
        if e.«end» ∈ node_set then
          match add_edge gNew e.start e.«end» props with
          | (Except.error er, _) => Except.error er
          | (Except.ok _, g2) => subgraph_edges_for src node_set g2 rest
        else subgraph_edges_for src node_set gNew rest
      else subgraph_edges_for src node_set gNew rest

/-- `generate_subgraph` edge phase, outer loop over the node set; the
`self.adjacency_list[node]` defaultdict read creates entries in the source's
adjacency index, so the (mutated) source is threaded through and returned. -/
def subgraph_scan (node_set : List Int) :
    Graph V → Graph V → List Int → Except Err (Graph V) × Graph V
  | gNew, src, [] => (Except.ok gNew, src)
  | gNew, src, n :: rest =>
    let src1 := { src with adjacency_list := ddEnsure src.adjacency_list n }
    match subgraph_edges_for src1 node_set gNew (ddGet src1.adjacency_list n) with
    | Except.error er => (Except.error er, src1)
    | Except.ok g2 => subgraph_scan node_set g2 src1 rest

/-- `generate_subgraph(*nodes)`: a fresh graph over the declared (non-required)
properties, the supplied nodes copied in order, then the edges found through
the adjacency entries of the deduplicated node set. -/
def generate_subgraph (g : Graph V) (nodes : List Int) :
    Except Err (Graph V) × Graph V :=
  match subgraph_add_nodes g (Graph.empty g.nodeProps g.edgeProps) nodes with
  | Except.error er => (Except.error er, g)
  | Except.ok g1 => subgraph_scan nodes.dedup g1 g nodes.dedup

/-- `size()`: the number of edges. -/
def Graph.size (g : Graph V) : Nat := g.edges.length

/-- `order()`: the number of nodes. -/
def Graph.order (g : Graph V) : Nat := g.nodes.length

/-!  ## Lemmas about the dictionary, set and defaultdict models  -/

theorem assocFind_eq_some_mem {α : Type} {m : List (Int × α)} {k : Int} {v : α}
    (h : assocFind m k = some v) : (k, v) ∈ m := by
  induction m with
  | nil => simp [assocFind] at h
  | cons p rest ih =>
    rw [assocFind] at h
    split at h
    · rename_i hk
      cases h
      subst hk
      exact List.mem_cons_self _ _
    · exact List.mem_cons_of_mem _ (ih h)

theorem assocFind_isSome_iff_mem_keys {α : Type} {m : List (Int × α)} {k : Int} :
    (assocFind m k).isSome ↔ k ∈ m.map Prod.fst := by
  induction m with
  | nil => simp [assocFind]
  | cons p rest ih =>
    rw [assocFind]
    by_cases hk : k = p.1
    · simp [hk]
    · simp [hk, ih]

theorem assocFind_eq_none_iff {α : Type} {m : List (Int × α)} {k : Int} :
    assocFind m k = none ↔ k ∉ m.map Prod.fst := by
  rw [← assocFind_isSome_iff_mem_keys, Option.not_isSome_iff_eq_none]

theorem assocSet_of_find_none {α : Type} {m : List (Int × α)} {k : Int} (v : α)
    (h : assocFind m k = none) : assocSet m k v = m ++ [(k, v)] := by
  induction m with
  | nil => rfl
  | cons p rest ih =>
    rw [assocFind] at h
    rw [assocSet]
    split at h
    · cases h
    · rename_i hk
      simp only [if_neg hk, List.cons_append, List.cons.injEq, true_and]
      exact ih h

theorem assocFind_assocSet_self {α : Type} (m : List (Int × α)) (k : Int) (v : α) :
    assocFind (assocSet m k v) k = some v := by
  induction m with
  | nil => simp [assocSet, assocFind]
  | cons p rest ih =>
    rw [assocSet]
    by_cases hk : k = p.1
    · simp [assocFind, hk]
    · simp [assocFind, hk, ih]

theorem assocFind_assocSet_ne {α : Type} (m : List (Int × α)) (k k' : Int) (v : α)
    (h : k' ≠ k) : assocFind (assocSet m k v) k' = assocFind m k' := by
  induction m with
  | nil => simp [assocSet, assocFind, h]
  | cons p rest ih =>
    rw [assocSet]
    by_cases hk : k = p.1
    · subst hk
      simp [assocFind, h]
    · rw [if_neg hk, assocFind, assocFind]
      by_cases hk' : k' = p.1
      · simp [hk']
      · simp [hk', ih]

theorem map_fst_assocSet_of_none {α : Type} {m : List (Int × α)} {k : Int} (v : α)
    (h : assocFind m k = none) :
    (assocSet m k v).map Prod.fst = m.map Prod.fst ++ [k] := by
  rw [assocSet_of_find_none v h, List.map_append]
  rfl

theorem map_fst_assocSet_of_some {α : Type} {m : List (Int × α)} {k : Int} {w : α} (v : α)
    (h : assocFind m k = some w) :
    (assocSet m k v).map Prod.fst = m.map Prod.fst := by
  induction m with
  | nil => simp [assocFind] at h
  | cons p rest ih =>
    rw [assocFind] at h
    rw [assocSet]
    split at h
    · rename_i hk
      simp [hk]
    · rename_i hk
      simp only [if_neg hk, List.map_cons, List.cons.injEq, true_and]
      exact ih h

theorem assocFind_append {α : Type} (m1 m2 : List (Int × α)) (k : Int) :
    assocFind (m1 ++ m2) k = (assocFind m1 k).or (assocFind m2 k) := by
  induction m1 with
  | nil =>
    rw [List.nil_append]
    show assocFind m2 k = Option.or none (assocFind m2 k)
    cases assocFind m2 k <;> rfl
  | cons p rest ih =>
    rw [List.cons_append, assocFind, assocFind]
    split
    · rfl
    · exact ih

theorem assocFind_assocErase_ne {α : Type} (m : List (Int × α)) (k k' : Int)
    (h : k' ≠ k) : assocFind (assocErase m k) k' = assocFind m k' := by
  induction m with
  | nil => rfl
  | cons p rest ih =>
    rw [assocErase]
    by_cases hk : k = p.1
    · rw [if_pos hk, assocFind]
      rw [← hk]
      rw [if_neg h]
    · rw [if_neg hk, assocFind, assocFind]
      by_cases hk' : k' = p.1
      · simp [hk']
      · simp [hk', ih]

theorem map_fst_assocErase {α : Type} (m : List (Int × α)) (k : Int) :
    (assocErase m k).map Prod.fst = (m.map Prod.fst).erase k := by
  induction m with
  | nil => rfl
  | cons p rest ih =>
    rw [assocErase, List.map_cons, List.erase_cons]
    by_cases hk : k = p.1
    · simp [hk]
    · have : ¬ p.1 = k := fun hc => hk hc.symm
      simp [hk, this, ih]

theorem assocFind_assocErase_self {α : Type} {m : List (Int × α)} {k : Int}
    (hnd : (m.map Prod.fst).Nodup) : assocFind (assocErase m k) k = none := by
  rw [assocFind_eq_none_iff, map_fst_assocErase]
  exact hnd.not_mem_erase

theorem ddGet_ddEnsure (m : List (Int × List Int)) (k k' : Int) :
    ddGet (ddEnsure m k) k' = ddGet m k' := by
  rw [ddEnsure]
  cases h : assocFind m k with
  | some s => rfl
  | none =>
    rw [ddGet, ddGet, assocFind_append]
    by_cases hk : k' = k
    · subst hk
      rw [h]
      simp [assocFind]
    · rw [assocFind]
      rw [if_neg hk]
      show ((assocFind m k').or (assocFind [] k')).getD [] = (assocFind m k').getD []
      cases assocFind m k' <;> rfl

theorem assocFind_ddEnsure_self (m : List (Int × List Int)) (k : Int) :
    assocFind (ddEnsure m k) k = some (ddGet m k) := by
  rw [ddEnsure]
  cases h : assocFind m k with
  | some s => rw [ddGet, h]; rfl
  | none =>
    rw [ddGet, h, assocFind_append, h]
    simp [assocFind]

theorem ddGet_adjAdd_self (m : List (Int × List Int)) (s u : Int) :
    ddGet (adjAdd m s u) s = setAdd (ddGet m s) u := by
  rw [adjAdd, ddGet, assocFind_assocSet_self, Option.getD_some, ddGet_ddEnsure]

theorem ddGet_adjAdd_ne (m : List (Int × List Int)) (s s' u : Int) (h : s' ≠ s) :
    ddGet (adjAdd m s u) s' = ddGet m s' := by
  rw [adjAdd, ddGet, assocFind_assocSet_ne _ _ _ _ h, ← ddGet, ddGet_ddEnsure]

theorem adjRemove_of_mem {m : List (Int × List Int)} {s u : Int}
    (h : u ∈ ddGet m s) :
    adjRemove m s u =
      (Except.ok (), assocSet (ddEnsure m s) s ((ddGet m s).erase u)) := by
  rw [adjRemove]
  simp only [ddGet_ddEnsure]
  rw [if_pos h]

theorem adjRemove_of_not_mem {m : List (Int × List Int)} {s u : Int}
    (h : u ∉ ddGet m s) :
    adjRemove m s u = (Except.error Err.keyError, ddEnsure m s) := by
  rw [adjRemove]
  simp only [ddGet_ddEnsure]
  rw [if_neg h]

theorem slookup_map_replace {V : Type} [DecidableEq V]
    (attrs kwargs : List (String × V)) (p : String) :
    slookup (attrs.map fun pv =>
      match slookup kwargs pv.1 with
      | some v => (pv.1, v)
      | none => pv) p =
      (slookup attrs p).map fun v => ((slookup kwargs p).getD v) := by
  induction attrs with
  | nil => rfl
  | cons q rest ih =>
    rw [List.map_cons]
    by_cases hq : p = q.1
    · subst hq
      cases hkv : slookup kwargs q.1 with
      | some w => simp [slookup, hkv]
      | none => simp [slookup, hkv]
    · cases hkv : slookup kwargs q.1 with
      | some w =>
        simp only [hkv]
        rw [slookup, if_neg hq, slookup, if_neg hq, ih]
      | none =>
        simp only [hkv]
        rw [slookup, if_neg hq, slookup, if_neg hq, ih]

theorem map_fst_map_replace {V : Type} [DecidableEq V]
    (attrs kwargs : List (String × V)) :
    ((attrs.map fun pv =>
      match slookup kwargs pv.1 with
      | some v => (pv.1, v)
      | none => pv).map Prod.fst) = attrs.map Prod.fst := by
  induction attrs with
  | nil => rfl
  | cons q rest ih =>
    rw [List.map_cons, List.map_cons, List.map_cons]
    cases hkv : slookup kwargs q.1 with
    | some w => simp only [hkv, ih]
    | none => simp only [hkv, ih]

/-!  ## Node-allocator call sequences  -/

/-- One `add_node`/`remove_node` call in a call sequence. -/
inductive NodeOp (V : Type) : Type where
  | add : List (String × V) → NodeOp V
  | remove : Int → NodeOp V

/-- Run one call, keeping the post-state (also when the call raises). -/
def runNodeOp (g : Graph V) : NodeOp V → Graph V
  | NodeOp.add kw => (add_node g kw).2
  | NodeOp.remove uid => (remove_node g uid).2

/-- Run a call sequence from a freshly constructed graph. -/
def runNodeOps (np ep : List String) (ops : List (NodeOp V)) : Graph V :=
  ops.foldl runNodeOp (Graph.empty np ep)

/-- An `add_node` call is schema-valid when its attribute set builds. -/
def validOp (np : List String) : NodeOp V → Bool
  | NodeOp.add kw => (build_record np kw).isSome
  | NodeOp.remove _ => true

/-- The node-allocator invariant: live keys are distinct, the free list is
duplicate-free and disjoint from the live keys, and together they hold
exactly the identifiers `1 .. len(nodes) + len(free)`. -/
def node_alloc_inv (g : Graph V) : Prop :=
  (g.nodes.map Prod.fst).Nodup ∧
    g.unused_node_uids.Nodup ∧
    (∀ u ∈ g.unused_node_uids, u ∉ g.nodes.map Prod.fst) ∧
    (∀ k : Int, (k ∈ g.nodes.map Prod.fst ∨ k ∈ g.unused_node_uids) ↔
      1 ≤ k ∧ k ≤ (g.nodes.length : Int) + g.unused_node_uids.length)

theorem node_alloc_inv_empty (np ep : List String) :
    node_alloc_inv (Graph.empty np ep : Graph V) := by
  refine ⟨List.nodup_nil, List.nodup_nil, ?_, ?_⟩
  · intro u hu
    cases hu
  · intro k
    simp only [Graph.empty]
    simp only [List.map_nil, List.not_mem_nil, or_self, List.length_nil,
      Nat.cast_zero, add_zero, false_iff, not_and, not_le]
    omega

theorem node_alloc_inv_fresh {g : Graph V} (hinv : node_alloc_inv g) :
    (get_node_uid g).1 ∉ g.nodes.map Prod.fst := by
  obtain ⟨hnd, hfnd, hdisj, hiff⟩ := hinv
  rw [get_node_uid]
  cases hfree : g.unused_node_uids.getLast? with
  | none =>
    intro hc
    have hempty : g.unused_node_uids = [] := List.getLast?_eq_none_iff.mp hfree
    have hb := (hiff _).mp (Or.inl hc)
    rw [hempty] at hb
    simp only [List.length_nil, Nat.cast_zero, add_zero] at hb
    omega
  | some u =>
    exact hdisj u (List.mem_of_mem_getLast? hfree)

theorem node_alloc_inv_add (g : Graph V) (kw : List (String × V))
    (hval : (build_record g.nodeProps kw).isSome = true)
    (hinv : node_alloc_inv g) : node_alloc_inv (add_node g kw).2 := by
  have hfresh := node_alloc_inv_fresh hinv
  obtain ⟨hnd, hfnd, hdisj, hiff⟩ := hinv
  obtain ⟨attrs, hattrs⟩ := Option.isSome_iff_exists.mp hval
  have hfindnone : assocFind g.nodes (get_node_uid g).1 = none :=
    assocFind_eq_none_iff.mpr hfresh
  rw [add_node]
  rw [get_node_uid] at hfresh hfindnone ⊢
  cases hfree : g.unused_node_uids.getLast? with
  | none =>
    have hempty : g.unused_node_uids = [] := List.getLast?_eq_none_iff.mp hfree
    rw [hfree] at hfresh hfindnone
    dsimp only at hfresh hfindnone ⊢
    simp only [hattrs]
    rw [assocSet_of_find_none _ hfindnone]
    refine ⟨?_, ?_, ?_, ?_⟩
    · rw [List.map_append]
      rw [List.nodup_append]
      exact ⟨hnd, List.nodup_singleton _, by
        intro a ha hb
        simp only [List.map_cons, List.map_nil, List.mem_singleton] at hb
        rw [hb] at ha
        exact hfresh ha⟩
    · exact hfnd
    · intro u hu
      rw [List.map_append, List.mem_append]
      rintro (hk | hk)
      · exact hdisj u hu hk
      · rw [hempty] at hu
        cases hu
    · intro k
      have h0 := hiff k
      rw [hempty] at h0 ⊢
      simp only [List.length_nil, Nat.cast_zero, add_zero, List.not_mem_nil,
        or_false] at h0 ⊢
      rw [List.map_append, List.mem_append]
      simp only [List.map_cons, List.map_nil, List.length_append,
        List.length_cons, List.length_nil, List.mem_singleton]
      push_cast
      constructor
      · rintro (hk | rfl)
        · have hb := h0.mp hk
          omega
        · omega
      · intro hb
        by_cases hk : k = (g.nodes.length : Int) + 1
        · exact Or.inr hk
        · exact Or.inl (h0.mpr (by omega))
  | some u =>
    have hcons : g.unused_node_uids.dropLast ++ [u] = g.unused_node_uids :=
      List.dropLast_append_getLast? u hfree
    rw [hfree] at hfresh hfindnone
    dsimp only at hfresh hfindnone ⊢
    simp only [hattrs]
    rw [assocSet_of_find_none _ hfindnone]
    have humem : u ∈ g.unused_node_uids := List.mem_of_mem_getLast? hfree
    have hunotdl : u ∉ g.unused_node_uids.dropLast := by
      intro hc
      have : ¬ (g.unused_node_uids.dropLast ++ [u]).Nodup := by
        rw [List.nodup_append]
        intro ⟨_, _, hdis⟩
        exact hdis hc (List.mem_singleton.mpr rfl)
      rw [hcons] at this
      exact this hfnd
    refine ⟨?_, ?_, ?_, ?_⟩
    · rw [List.map_append]
      rw [List.nodup_append]
      exact ⟨hnd, List.nodup_singleton _, by
        intro a ha hb
        simp only [List.map_cons, List.map_nil, List.mem_singleton] at hb
        rw [hb] at ha
        exact hfresh ha⟩
    · exact hfnd.sublist (List.dropLast_sublist _)
    · intro v hv
      have hvfull : v ∈ g.unused_node_uids := by
        rw [← hcons]
        exact List.mem_append_left _ hv
      rw [List.map_append, List.mem_append]
      rintro (hk | hk)
      · exact hdisj v hvfull hk
      · simp only [List.map_cons, List.map_nil, List.mem_singleton] at hk
        rw [hk] at hv
        exact hunotdl hv
    · intro k
      have h0 := hiff k
      rw [List.map_append, List.mem_append]
      simp only [List.map_cons, List.map_nil, List.mem_singleton,
        List.length_append, List.length_cons, List.length_nil]
      have hmemsplit : k ∈ g.unused_node_uids ↔
          k ∈ g.unused_node_uids.dropLast ∨ k = u := by
        conv_lhs => rw [← hcons]
        rw [List.mem_append, List.mem_singleton]
      have hlen : g.unused_node_uids.length =
          g.unused_node_uids.dropLast.length + 1 := by
        conv_lhs => rw [← hcons]
        rw [List.length_append, List.length_cons, List.length_nil]
      rw [hmemsplit] at h0
      rw [hlen] at h0
      push_cast at h0 ⊢
      constructor
      · rintro ((hk | rfl) | hk)
        · have hb := h0.mp (Or.inl hk)
          omega
        · have hb := h0.mp (Or.inr (Or.inr rfl))
          omega
        · have hb := h0.mp (Or.inr (Or.inl hk))
          omega
      · intro hb
        have := h0.mpr (by omega)
        tauto

theorem node_alloc_inv_remove (g : Graph V) (uid : Int)
    (hinv : node_alloc_inv g) : node_alloc_inv (remove_node g uid).2 := by
  obtain ⟨hnd, hfnd, hdisj, hiff⟩ := hinv
  rw [remove_node]
  cases hfound : assocFind g.nodes uid with
  | none => exact ⟨hnd, hfnd, hdisj, hiff⟩
  | some n =>
    have hkmem : uid ∈ g.nodes.map Prod.fst :=
      assocFind_isSome_iff_mem_keys.mp (by rw [hfound]; rfl)
    have hufree : uid ∉ g.unused_node_uids := fun hc => hdisj uid hc hkmem
    refine ⟨?_, ?_, ?_, ?_⟩
    · rw [map_fst_assocErase]
      exact hnd.erase uid
    · rw [List.nodup_append]
      exact ⟨hfnd, List.nodup_singleton _, by
        intro a ha hb
        rw [List.mem_singleton] at hb
        rw [hb] at ha
        exact hufree ha⟩
    · intro v hv
      rw [map_fst_assocErase]
      rw [List.mem_append, List.mem_singleton] at hv
      rcases hv with hv | rfl
      · intro hc
        exact hdisj v hv (List.mem_of_mem_erase hc)
      · exact hnd.not_mem_erase
    · intro k
      have h0 := hiff k
      rw [map_fst_assocErase, List.mem_append, List.mem_singleton,
        hnd.mem_erase_iff]
      have hlen : (assocErase g.nodes uid).length + 1 = g.nodes.length := by
        have := List.length_erase_add_one hkmem
        have hmap : (assocErase g.nodes uid).length =
            ((g.nodes.map Prod.fst).erase uid).length := by
          rw [← map_fst_assocErase, List.length_map]
        rw [hmap]
        rw [List.length_map] at this
        exact this
      rw [List.length_append, List.length_cons, List.length_nil]
      push_cast at h0 ⊢
      have hlenZ : ((assocErase g.nodes uid).length : Int) + 1 =
          (g.nodes.length : Int) := by
        exact_mod_cast congrArg (Nat.cast : Nat → Int) hlen
      have hbu := (hiff uid).mp (Or.inl hkmem)
      push_cast at hbu
      constructor
      · rintro (⟨hne, hk⟩ | hk | rfl)
        · have hb := h0.mp (Or.inl hk)
          omega
        · have hb := h0.mp (Or.inr hk)
          omega
        · omega
      · intro hb
        have hk := h0.mpr (by omega)
        by_cases hku : k = uid
        · exact Or.inr (Or.inr hku)
        · rcases hk with hk | hk
          · exact Or.inl ⟨hku, hk⟩
          · exact Or.inr (Or.inl hk)

/-!  ## Theorems about the embedded operations  -/

/-- C1: the adjacency invariant does not survive every public operation.
Build nodes 1 and 2 and the edge `-1 : 1 → 2`, then run the public
`graph[-1] = Edge(start=2, end=2, weight=5)` assignment.  The call reports
success, yet the edge store still holds the old record with `start = 1`
while the adjacency entry of node 1 is empty and the entry of node 2 lists
`-1`: for the live node 1, `adjacency[1] ≠ {e : edges[e].start = 1}`. -/
theorem C1_adjacency_invariant_broken :
    (let g0 : Graph Int := Graph.empty ["city"] ["w"]
     let g1 := (add_node g0 [("city", 10)]).2
     let g2 := (add_node g1 [("city", 20)]).2
     let g3 := (add_edge g2 1 2 [("w", 5)]).2
     let r := setitem_edge g3 (-1) ⟨2, 2, [("w", 5)]⟩
     r.1 = Except.ok () ∧
       assocFind r.2.edges (-1) = some ⟨1, 2, [("w", 5)]⟩ ∧
       ddGet r.2.adjacency_list 1 = [] ∧
       ddGet r.2.adjacency_list 2 = [-1] ∧
       assocFind r.2.nodes 1 = some ⟨[("city", 10)]⟩) :=
  ⟨rfl, rfl, rfl, rfl, rfl⟩

/-- C2 counterexample: after `add_node`, `add_node`, `remove_node 1`, and an
`add_node` whose attribute set mismatches the schema (which pops the free
list before failing), the free list is empty, so the next `add_node` issues
`len(nodes)+1 = 2` even though node 2 is live — the identifier is assigned
while in use and the live record is silently overwritten. -/
theorem C2_counterexample :
    (let g0 : Graph Int := Graph.empty ["city"] []
     let g1 := (add_node g0 [("city", 10)]).2
     let g2 := (add_node g1 [("city", 20)]).2
     let g3 := (remove_node g2 1).2
     let g4 := (add_node g3 [("bad", 0)]).2
     assocFind g4.nodes 2 = some ⟨[("city", 20)]⟩ ∧
       (add_node g4 [("city", 30)]).1 = Except.ok 2 ∧
       assocFind (add_node g4 [("city", 30)]).2.nodes 2 = some ⟨[("city", 30)]⟩) :=
  ⟨rfl, rfl, rfl⟩

theorem add_node_nodeProps (g : Graph V) (kw : List (String × V)) :
    (add_node g kw).2.nodeProps = g.nodeProps := by
  rw [add_node, get_node_uid]
  cases hfree : g.unused_node_uids.getLast? with
  | none =>
    dsimp only
    cases hbr : build_record g.nodeProps kw <;> rfl
  | some u =>
    dsimp only
    cases hbr : build_record g.nodeProps kw <;> rfl

theorem remove_node_nodeProps (g : Graph V) (uid : Int) :
    (remove_node g uid).2.nodeProps = g.nodeProps := by
  rw [remove_node]
  cases assocFind g.nodes uid <;> rfl

theorem runNodeOps_inv (np ep : List String) (ops : List (NodeOp V))
    (hv : ops.all (validOp np) = true) :
    node_alloc_inv (runNodeOps np ep ops) ∧ (runNodeOps np ep ops).nodeProps = np := by
  rw [runNodeOps]
  suffices h : ∀ (ops2 : List (NodeOp V)), ops2.all (validOp np) = true →
      ∀ (g : Graph V), node_alloc_inv g → g.nodeProps = np →
      node_alloc_inv (ops2.foldl runNodeOp g) ∧
        (ops2.foldl runNodeOp g).nodeProps = np by
    exact h ops hv (Graph.empty np ep) (node_alloc_inv_empty np ep) rfl
  intro ops2
  induction ops2 with
  | nil =>
    intro _ g hg hp
    exact ⟨hg, hp⟩
  | cons op rest ih =>
    intro hv2 g hg hp
    rw [List.all_cons, Bool.and_eq_true] at hv2
    rw [List.foldl_cons]
    cases op with
    | add kw =>
      apply ih hv2.2
      · apply node_alloc_inv_add _ _ _ hg
        rw [hp]
        have := hv2.1
        rw [validOp] at this
        exact this
      · rw [runNodeOp, add_node_nodeProps, hp]
    | remove uid =>
      apply ih hv2.2
      · exact node_alloc_inv_remove _ _ hg
      · rw [runNodeOp, remove_node_nodeProps, hp]

/-- C2 (amended): for every sequence of `add_node`/`remove_node` calls whose
`add_node` attribute sets are schema-valid (an invalid `add_node` leaks the
popped free-list identifier and a later `add_node` can then issue a live
identifier, see the counterexample), the live node identifiers stay pairwise
distinct, a successful `add_node` issues an identifier that is not live
beforehand, removing a live node and then allocating yields that same
identifier back (LIFO reuse of the most recently freed identifier), and with
an empty free list the issued identifier is `count(nodes) + 1`. -/
theorem C2_allocator {V : Type} [DecidableEq V] (np ep : List String)
    (ops : List (NodeOp V)) (hv : ops.all (validOp np) = true) :
    ((runNodeOps np ep ops).nodes.map Prod.fst).Nodup ∧
      (∀ kw uid g', add_node (runNodeOps np ep ops) kw = (Except.ok uid, g') →
        uid ∉ (runNodeOps np ep ops).nodes.map Prod.fst) ∧
      (∀ uid n, assocFind (runNodeOps np ep ops).nodes uid = some n →
        (get_node_uid (remove_node (runNodeOps np ep ops) uid).2).1 = uid) ∧
      ((runNodeOps np ep ops).unused_node_uids = [] →
        (get_node_uid (runNodeOps np ep ops)).1 =
          ((runNodeOps np ep ops).nodes.length : Int) + 1) := by
  obtain ⟨hinv, hp⟩ := runNodeOps_inv np ep ops hv
  refine ⟨hinv.1, ?_, ?_, ?_⟩
  · intro kw uid g' hadd
    have huid : uid = (get_node_uid (runNodeOps np ep ops)).1 := by
      simp only [add_node] at hadd
      cases hbr : build_record (get_node_uid (runNodeOps np ep ops)).2.nodeProps kw with
      | none =>
        rw [hbr] at hadd
        have := congrArg Prod.fst hadd
        simp at this
      | some attrs =>
        rw [hbr] at hadd
        have := congrArg Prod.fst hadd
        simp only [Except.ok.injEq] at this
        exact this.symm
    rw [huid]
    exact node_alloc_inv_fresh hinv
  · intro uid n hfound
    rw [remove_node, hfound]
    dsimp only
    rw [get_node_uid]
    dsimp only
    rw [List.getLast?_concat]
  · intro hempty
    rw [get_node_uid, hempty]
    rfl

/-- C2 witness: after `add_node`, `add_node`, `remove_node 1` (all
schema-valid), removing the live node 2 and allocating returns identifier 2. -/
theorem C2_allocator_witness :
    (get_node_uid (remove_node (runNodeOps ["city"] []
        [NodeOp.add [("city", (10 : Int))], NodeOp.add [("city", 20)],
          NodeOp.remove 1] : Graph Int) 2).2).1 = 2 :=
  (C2_allocator ["city"] []
    [NodeOp.add [("city", (10 : Int))], NodeOp.add [("city", 20)],
      NodeOp.remove 1] (by decide)).2.2.1 2 ⟨[("city", 20)]⟩ (by decide)

/-!  ## Traversal correctness  -/

/-- One traversal hop: `b` is among the adjacent uids of `a` (the node
itself, or the `end` of an adjacency-indexed outgoing edge). -/
def adjStep (g : Graph V) (a b : Int) : Prop :=
  b ∈ get_adjacent_uids g a

theorem adjacent_mem_universe {g : Graph V} {x y : Int}
    (h : y ∈ get_adjacent_uids g x) :
    y = x ∨ y ∈ g.edges.map fun p => p.2.«end» := by
  rw [get_adjacent_uids] at h
  rcases List.mem_cons.mp h with h1 | h2
  · exact Or.inl h1
  · right
    obtain ⟨eid, _, heq⟩ := List.mem_filterMap.mp h2
    obtain ⟨e, hfind, he⟩ := Option.map_eq_some'.mp heq
    exact List.mem_map.mpr ⟨(eid, e), assocFind_eq_some_mem hfind, he⟩

theorem frontier_foldl_subset (vis l acc : List Int) :
    ∀ x ∈ acc, x ∈ l.foldl
      (fun acc2 uid => if uid ∈ acc2 ∨ uid ∈ vis then acc2 else acc2 ++ [uid]) acc := by
  induction l generalizing acc with
  | nil => exact fun x hx => hx
  | cons b bs ih =>
    intro x hx
    rw [List.foldl_cons]
    by_cases hb : b ∈ acc ∨ b ∈ vis
    · rw [if_pos hb]
      exact ih acc x hx
    · rw [if_neg hb]
      exact ih _ x (List.mem_append_left _ hx)

theorem frontier_foldl_mem_iff (vis l acc : List Int) (y : Int) :
    (y ∈ l.foldl
      (fun acc2 uid => if uid ∈ acc2 ∨ uid ∈ vis then acc2 else acc2 ++ [uid]) acc)
      ↔ y ∈ acc ∨ (y ∈ l ∧ y ∉ vis) := by
  induction l generalizing acc with
  | nil => simp
  | cons b bs ih =>
    rw [List.foldl_cons]
    by_cases hb : b ∈ acc ∨ b ∈ vis
    · rw [if_pos hb, ih]
      constructor
      · rintro (h | ⟨hm, hnv⟩)
        · exact Or.inl h
        · exact Or.inr ⟨List.mem_cons_of_mem _ hm, hnv⟩
      · rintro (h | ⟨hm, hnv⟩)
        · exact Or.inl h
        · rcases List.mem_cons.mp hm with rfl | hm2
          · rcases hb with hb | hb
            · exact Or.inl hb
            · exact absurd hb hnv
          · exact Or.inr ⟨hm2, hnv⟩
    · rw [if_neg hb, ih]
      push_neg at hb
      constructor
      · rintro (h | ⟨hm, hnv⟩)
        · rcases List.mem_append.mp h with h1 | h1
          · exact Or.inl h1
          · rw [List.mem_singleton] at h1
            subst h1
            exact Or.inr ⟨List.mem_cons_self _ _, hb.2⟩
        · exact Or.inr ⟨List.mem_cons_of_mem _ hm, hnv⟩
      · rintro (h | ⟨hm, hnv⟩)
        · exact Or.inl (List.mem_append_left _ h)
        · rcases List.mem_cons.mp hm with rfl | hm2
          · exact Or.inl (List.mem_append_right _ (List.mem_singleton.mpr rfl))
          · exact Or.inr ⟨hm2, hnv⟩

theorem frontier_foldl_nodup (vis l : List Int) :
    ∀ (acc : List Int), acc.Nodup →
      (l.foldl
        (fun acc2 uid => if uid ∈ acc2 ∨ uid ∈ vis then acc2 else acc2 ++ [uid])
        acc).Nodup := by
  induction l with
  | nil => exact fun acc h => h
  | cons b bs ih =>
    intro acc hacc
    rw [List.foldl_cons]
    by_cases hb : b ∈ acc ∨ b ∈ vis
    · rw [if_pos hb]
      exact ih acc hacc
    · rw [if_neg hb]
      push_neg at hb
      refine ih _ ?_
      rw [List.nodup_append]
      exact ⟨hacc, List.nodup_singleton _, by
        intro a ha hc
        rw [List.mem_singleton] at hc
        subst hc
        exact hb.1 ha⟩

theorem pick_mem_iff (pb : Bool) (h : Int) (t : List Int) (x : Int) :
    x ∈ h :: t ↔
      (x = (if pb then (h :: t).getLast (List.cons_ne_nil h t) else h) ∨
        x ∈ (if pb then (h :: t).dropLast else t)) := by
  cases pb with
  | false => simp [List.mem_cons]
  | true =>
    simp only [if_pos rfl]
    conv_lhs => rw [← List.dropLast_append_getLast (List.cons_ne_nil h t)]
    rw [List.mem_append, List.mem_singleton]
    tauto

theorem pick_length (pb : Bool) (h : Int) (t : List Int) :
    (if pb then (h :: t).dropLast else t).length + 1 = (h :: t).length := by
  cases pb with
  | false => simp
  | true =>
    simp only [if_pos rfl]
    conv_rhs => rw [← List.dropLast_append_getLast (List.cons_ne_nil h t)]
    rw [List.length_append]
    simp

theorem pick_nodup (pb : Bool) (h : Int) (t : List Int) (hnd : (h :: t).Nodup) :
    (if pb then (h :: t).dropLast else t).Nodup ∧
      (if pb then (h :: t).getLast (List.cons_ne_nil h t) else h) ∉
        (if pb then (h :: t).dropLast else t) := by
  cases pb with
  | false =>
    simp only [if_neg Bool.false_ne_true]
    exact ⟨(List.nodup_cons.mp hnd).2, (List.nodup_cons.mp hnd).1⟩
  | true =>
    simp only [if_pos rfl]
    have hfull : ((h :: t).dropLast ++ [(h :: t).getLast (List.cons_ne_nil h t)]).Nodup := by
      rw [List.dropLast_append_getLast (List.cons_ne_nil h t)]
      exact hnd
    rw [List.nodup_append] at hfull
    exact ⟨hfull.1, fun hc => hfull.2.2 hc (List.mem_singleton.mpr rfl)⟩

/-- The worklist invariant argument for `a_star_traversal`: given a
duplicate-free frontier/visited pair inside the traversal universe, all
reachable from the root, with every visited node's successors already
recorded, and fuel exceeding the number of universe elements not yet
visited, the loop output together with the visited prefix stays
duplicate-free, drains the whole frontier, yields only reachable
identifiers, and is closed under the successor relation. -/
theorem a_star_loop_main (g : Graph V) (pb : Bool) (root : Int) :
    ∀ (fuel : Nat) (u v : List Int),
      (v ++ u).Nodup →
      (∀ x ∈ v ++ u, x ∈ traversal_universe g root) →
      (∀ x ∈ v ++ u, Relation.ReflTransGen (adjStep g) root x) →
      (∀ x ∈ v, ∀ y ∈ get_adjacent_uids g x, y ∈ v ∨ y ∈ u) →
      ((traversal_universe g root) \ v.toFinset).card < fuel →
      (v ++ a_star_loop g pb fuel u v).Nodup ∧
        (∀ x ∈ u, x ∈ a_star_loop g pb fuel u v) ∧
        (∀ x ∈ a_star_loop g pb fuel u v, Relation.ReflTransGen (adjStep g) root x) ∧
        (∀ x ∈ v ++ a_star_loop g pb fuel u v, ∀ y ∈ get_adjacent_uids g x,
          y ∈ v ++ a_star_loop g pb fuel u v) := by
  intro fuel
  induction fuel with
  | zero =>
    intro u v _ _ _ _ hcard
    exact absurd hcard (Nat.not_lt_zero _)
  | succ fuel ih =>
    intro u v hnd hU hreach hclosed hcard
    cases u with
    | nil =>
      have hempty : a_star_loop g pb (fuel + 1) ([] : List Int) v = [] := rfl
      rw [hempty]
      refine ⟨hnd, fun x hx => absurd hx (List.not_mem_nil x), ?_, ?_⟩
      · intro x hx
        exact absurd hx (List.not_mem_nil x)
      · intro x hx y hy
        rw [List.append_nil] at hx ⊢
        rcases hclosed x hx y hy with h1 | h1
        · exact h1
        · exact absurd h1 (List.not_mem_nil y)
    | cons h t =>
      set next := if pb then (h :: t).getLast (List.cons_ne_nil h t) else h with hnext
      set rest := if pb then (h :: t).dropLast else t with hrest
      set v2 := v ++ [next] with hv2
      set u2 := (get_adjacent_uids g next).foldl
        (fun acc uid => if uid ∈ acc ∨ uid ∈ v2 then acc else acc ++ [uid]) rest
        with hu2
      have hloop : a_star_loop g pb (fuel + 1) (h :: t) v =
          next :: a_star_loop g pb fuel u2 v2 := rfl
      -- decompose the frontier pick
      have hpick_mem : ∀ x, x ∈ h :: t ↔ (x = next ∨ x ∈ rest) := by
        intro x
        rw [hnext, hrest]
        exact pick_mem_iff pb h t x
      have hvnd : v.Nodup := (List.nodup_append.mp hnd).1
      have hund : (h :: t).Nodup := (List.nodup_append.mp hnd).2.1
      have hdisjvu : ∀ x ∈ v, x ∉ h :: t := fun x hx hc =>
        (List.nodup_append.mp hnd).2.2 hx hc
      have hnext_mem_u : next ∈ h :: t := (hpick_mem next).mpr (Or.inl rfl)
      have hnext_notv : next ∉ v := fun hc => hdisjvu next hc hnext_mem_u
      obtain ⟨hrest_nd, hnext_notrest⟩ : rest.Nodup ∧ next ∉ rest := by
        rw [hnext, hrest]
        exact pick_nodup pb h t hund
      have hrest_sub : ∀ x ∈ rest, x ∈ h :: t := fun x hx =>
        (hpick_mem x).mpr (Or.inr hx)
      have hv2nd : v2.Nodup := by
        rw [hv2, List.nodup_append]
        exact ⟨hvnd, List.nodup_singleton _, by
          intro a ha hc
          rw [List.mem_singleton] at hc
          subst hc
          exact hnext_notv ha⟩
      have hu2mem : ∀ y, y ∈ u2 ↔ y ∈ rest ∨ (y ∈ get_adjacent_uids g next ∧ y ∉ v2) := by
        intro y
        rw [hu2]
        exact frontier_foldl_mem_iff v2 _ rest y
      have hu2nd : u2.Nodup := by
        rw [hu2]
        exact frontier_foldl_nodup v2 _ rest hrest_nd
      have hrest_notv : ∀ x ∈ rest, x ∉ v := fun x hx hc =>
        hdisjvu x hc (hrest_sub x hx)
      -- the new pair (u2, v2) satisfies every invariant
      have hnd2 : (v2 ++ u2).Nodup := by
        rw [List.nodup_append]
        refine ⟨hv2nd, hu2nd, ?_⟩
        intro a ha hc
        rcases (hu2mem a).mp hc with h1 | h1
        · rw [hv2, List.mem_append, List.mem_singleton] at ha
          rcases ha with ha | rfl
          · exact hrest_notv a h1 ha
          · exact hnext_notrest h1
        · exact h1.2 ha
      have hU2 : ∀ x ∈ v2 ++ u2, x ∈ traversal_universe g root := by
        intro x hx
        rw [List.mem_append] at hx
        rcases hx with hx | hx
        · rw [hv2, List.mem_append, List.mem_singleton] at hx
          rcases hx with hx | rfl
          · exact hU x (List.mem_append_left _ hx)
          · exact hU next (List.mem_append_right _ hnext_mem_u)
        · rcases (hu2mem x).mp hx with h1 | h1
          · exact hU x (List.mem_append_right _ (hrest_sub x h1))
          · rcases adjacent_mem_universe h1.1 with rfl | h2
            · exact hU next (List.mem_append_right _ hnext_mem_u)
            · rw [traversal_universe]
              exact Finset.mem_insert_of_mem (List.mem_toFinset.mpr h2)
      have hreach_next : Relation.ReflTransGen (adjStep g) root next :=
        hreach next (List.mem_append_right _ hnext_mem_u)
      have hreach2 : ∀ x ∈ v2 ++ u2, Relation.ReflTransGen (adjStep g) root x := by
        intro x hx
        rw [List.mem_append] at hx
        rcases hx with hx | hx
        · rw [hv2, List.mem_append, List.mem_singleton] at hx
          rcases hx with hx | rfl
          · exact hreach x (List.mem_append_left _ hx)
          · exact hreach_next
        · rcases (hu2mem x).mp hx with h1 | h1
          · exact hreach x (List.mem_append_right _ (hrest_sub x h1))
          · exact Relation.ReflTransGen.tail hreach_next h1.1
      have hclosed2 : ∀ x ∈ v2, ∀ y ∈ get_adjacent_uids g x, y ∈ v2 ∨ y ∈ u2 := by
        intro x hx y hy
        rw [hv2, List.mem_append, List.mem_singleton] at hx
        rcases hx with hx | rfl
        · rcases hclosed x hx y hy with h1 | h1
          · exact Or.inl (List.mem_append_left _ h1)
          · rcases (hpick_mem y).mp h1 with rfl | h2
            · exact Or.inl (List.mem_append_right _ (List.mem_singleton.mpr rfl))
            · exact Or.inr ((hu2mem y).mpr (Or.inl h2))
        · by_cases hyv2 : y ∈ v2
          · exact Or.inl hyv2
          · by_cases hyrest : y ∈ rest
            · exact Or.inr ((hu2mem y).mpr (Or.inl hyrest))
            · exact Or.inr ((hu2mem y).mpr (Or.inr ⟨hy, hyv2⟩))
      have hnextW : next ∈ traversal_universe g root :=
        hU next (List.mem_append_right _ hnext_mem_u)
      have hcard2 : ((traversal_universe g root) \ v2.toFinset).card < fuel := by
        have hv2fin : v2.toFinset = insert next v.toFinset := by
          rw [hv2]
          rw [List.toFinset_append]
          simp only [List.toFinset_cons, List.toFinset_nil, insert_emptyc_eq]
          rw [Finset.insert_eq, Finset.union_comm]
        rw [hv2fin, Finset.sdiff_insert]
        have hmem : next ∈ (traversal_universe g root) \ v.toFinset :=
          Finset.mem_sdiff.mpr ⟨hnextW, fun hc => hnext_notv (List.mem_toFinset.mp hc)⟩
        have hpos : 0 < ((traversal_universe g root) \ v.toFinset).card :=
          Finset.card_pos.mpr ⟨next, hmem⟩
        rw [Finset.card_erase_of_mem hmem]
        omega
      obtain ⟨ih1, ih2, ih3, ih4⟩ := ih u2 v2 hnd2 hU2 hreach2 hclosed2 hcard2
      have hassoc : v ++ next :: a_star_loop g pb fuel u2 v2 =
          v2 ++ a_star_loop g pb fuel u2 v2 := by
        rw [hv2, List.append_assoc, List.singleton_append]
      refine ⟨?_, ?_, ?_, ?_⟩
      · rw [hloop, hassoc]
        exact ih1
      · intro x hx
        rw [hloop]
        rcases (hpick_mem x).mp hx with rfl | h2
        · exact List.mem_cons_self _ _
        · exact List.mem_cons_of_mem _
            (ih2 x (frontier_foldl_subset v2 _ rest x h2))
      · intro x hx
        rw [hloop] at hx
        rcases List.mem_cons.mp hx with rfl | h2
        · exact hreach_next
        · exact ih3 x h2
      · intro x hx y hy
        rw [hloop, hassoc] at hx ⊢
        exact ih4 x hx y hy

/-- A full `a_star_traversal` run yields, without duplicates and independent
of the selector, exactly the identifiers reachable from the root, starting
with the root itself. -/
theorem a_star_traversal_spec (g : Graph V) (pb : Bool) (root : Int) :
    (a_star_traversal g pb root).Nodup ∧
      (∀ x, x ∈ a_star_traversal g pb root ↔
        Relation.ReflTransGen (adjStep g) root x) ∧
      (a_star_traversal g pb root).head? = some root := by
  have hmain := a_star_loop_main g pb root (traversal_fuel g root) [root] []
    (by simp)
    (by
      intro x hx
      simp only [List.nil_append, List.mem_singleton] at hx
      subst hx
      rw [traversal_universe]
      exact Finset.mem_insert_self _ _)
    (by
      intro x hx
      simp only [List.nil_append, List.mem_singleton] at hx
      subst hx
      exact Relation.ReflTransGen.refl)
    (by
      intro x hx
      exact absurd hx (List.not_mem_nil x))
    (by
      rw [traversal_fuel]
      simp only [List.toFinset_nil, Finset.sdiff_empty]
      omega)
  obtain ⟨h1, h2, h3, h4⟩ := hmain
  refine ⟨?_, ?_, ?_⟩
  · rw [List.nil_append] at h1
    exact h1
  · intro x
    constructor
    · exact h3 x
    · intro hr
      induction hr with
      | refl => exact h2 root (List.mem_singleton.mpr rfl)
      | tail hab hbc ihab =>
        have hres := h4 _ (by rw [List.nil_append]; exact ihab) _ hbc
        rw [List.nil_append] at hres
        exact hres
  · cases pb <;> rfl

/-- C3: for every well-formed graph (every adjacency-listed edge uid present
in the edge store, so that neighbour enumeration is total as in the data
model) and every root identifier present in the graph, depth-first and
breadth-first traversal yield exactly the same set of identifiers — the
identifiers reachable from the root — each exactly once (no duplicate
yields), with the root yielded first by both. -/
theorem C3_traversals_agree {V : Type} [DecidableEq V] (g : Graph V) (root : Int)
    (hroot : (assocFind g.nodes root).isSome = true)
    (hwf : (g.adjacency_list.all fun p =>
      p.2.all fun e => (assocFind g.edges e).isSome) = true) :
    (∀ x, x ∈ depth_first_traversal g root ↔ x ∈ breadth_first_traversal g root) ∧
      (depth_first_traversal g root).Nodup ∧
      (breadth_first_traversal g root).Nodup ∧
      (depth_first_traversal g root).head? = some root ∧
      (breadth_first_traversal g root).head? = some root := by
  obtain ⟨hd1, hd2, hd3⟩ := a_star_traversal_spec g true root
  obtain ⟨hb1, hb2, hb3⟩ := a_star_traversal_spec g false root
  exact ⟨fun x => (hd2 x).trans (hb2 x).symm, hd1, hb1, hd3, hb3⟩

/-- C3 witness: on the two-node graph with the single edge `-1 : 1 → 2`,
both traversals from root 1 yield the same duplicate-free sequence headed
by 1. -/
theorem C3_traversals_agree_witness :
    (depth_first_traversal (⟨[], [],
        [(1, ⟨[]⟩), (2, ⟨[]⟩)], [(-1, ⟨1, 2, []⟩)],
        [(1, [-1])], [], []⟩ : Graph Int) 1).Nodup :=
  (C3_traversals_agree _ 1 (by decide) (by decide)).2.1

/-- C4: `generate_subgraph` copies edges with the source's endpoint
identifiers instead of the newly assigned ones.  Source: nodes 1, 2, 3 and
edge `-1 : 2 → 3`.  The subgraph over `(2, 3)` assigns new identifiers 1 and
2 to the copied nodes, but its only edge still runs `2 → 3`: its `end` is
not a node of the subgraph at all, and its `start` names the node that
corresponds to source node 3, not source node 2. -/
theorem C4_subgraph_keeps_source_endpoints :
    (let g0 : Graph Int := Graph.empty ["city"] ["w"]
     let g1 := (add_node g0 [("city", 10)]).2
     let g2 := (add_node g1 [("city", 20)]).2
     let g3 := (add_node g2 [("city", 30)]).2
     let g4 := (add_edge g3 2 3 [("w", 5)]).2
     (generate_subgraph g4 [2, 3]).1 =
       Except.ok
         { nodeProps := ["city"]
           edgeProps := ["w"]
           nodes := [(1, ⟨[("city", 20)]⟩), (2, ⟨[("city", 30)]⟩)]
           edges := [(-1, ⟨2, 3, [("w", 5)]⟩)]
           adjacency_list := [(2, [-1])]
           unused_node_uids := []
           unused_edge_uids := [] }) :=
  rfl

/-- C5: `modify_edge` with a replacement whose `start` differs from the
original's raises `KeyError` instead of installing the record: `__setitem__`
has already rewired the adjacency index (without storing the record), and
the duplicated relocation block then removes the uid from the old start's
entry a second time.  At the raise, the store still holds the old record
while the adjacency index points the uid at the new start. -/
theorem C5_modify_edge_relocation_raises :
    (let g0 : Graph Int := Graph.empty ["city"] ["w"]
     let g1 := (add_node g0 [("city", 10)]).2
     let g2 := (add_node g1 [("city", 20)]).2
     let g3 := (add_edge g2 1 2 [("w", 5)]).2
     let r := modify_edge g3 (-1) (some 2) none []
     r.1 = Except.error Err.keyError ∧
       assocFind r.2.edges (-1) = some ⟨1, 2, [("w", 5)]⟩ ∧
       ddGet r.2.adjacency_list 1 = [] ∧
       ddGet r.2.adjacency_list 2 = [-1]) :=
  ⟨rfl, rfl, rfl, rfl⟩

/-- C6 counterexample: after `remove_node 1`, removing the still-live edge
`-1 : 1 → 2` raises `KeyError` (the adjacency entry of its start is gone),
with the edge already evicted from the store and its identifier not
recycled — instead of returning the removed record. -/
theorem C6_counterexample :
    (let g0 : Graph Int := Graph.empty ["city"] ["w"]
     let g1 := (add_node g0 [("city", 10)]).2
     let g2 := (add_node g1 [("city", 20)]).2
     let g3 := (add_edge g2 1 2 [("w", 5)]).2
     let g4 := (remove_node g3 1).2
     let r := remove_edge g4 (-1)
     r.1 = Except.error Err.keyError ∧
       assocFind r.2.edges (-1) = none ∧
       r.2.unused_edge_uids = []) :=
  ⟨rfl, rfl, rfl⟩

/-- C6 (amended): for a live edge whose identifier is present in the
adjacency entry of its `start` (in particular whenever the start node has
not been removed), `remove_edge` returns the removed record, evicts it from
the edge store (leaving every other edge in place), removes the identifier
from the start's adjacency entry (leaving every other entry unchanged),
recycles the identifier onto the edge free list, and leaves the node store
alone.  When the identifier is missing from that entry — e.g. after the
start node was removed — it instead raises `KeyError` (see the
counterexample). -/
theorem C6_remove_edge {V : Type} [DecidableEq V] (g : Graph V) (uid : Int) (e : Edge V)
    (he : assocFind g.edges uid = some e)
    (hadj : uid ∈ ddGet g.adjacency_list e.start)
    (hkeys : (g.edges.map Prod.fst).Nodup)
    (hset : (ddGet g.adjacency_list e.start).Nodup) :
    (remove_edge g uid).1 = Except.ok e ∧
      assocFind (remove_edge g uid).2.edges uid = none ∧
      (∀ k, k ≠ uid → assocFind (remove_edge g uid).2.edges k = assocFind g.edges k) ∧
      uid ∉ ddGet (remove_edge g uid).2.adjacency_list e.start ∧
      (∀ s, s ≠ e.start →
        ddGet (remove_edge g uid).2.adjacency_list s = ddGet g.adjacency_list s) ∧
      (remove_edge g uid).2.unused_edge_uids = g.unused_edge_uids ++ [uid] ∧
      (remove_edge g uid).2.nodes = g.nodes := by
  have hrm := adjRemove_of_mem (m := g.adjacency_list) hadj
  simp only [remove_edge, he, hrm]
  refine ⟨trivial, ?_, ?_, ?_, ?_, trivial, trivial⟩
  · exact assocFind_assocErase_self hkeys
  · intro k hk
    exact assocFind_assocErase_ne _ _ _ hk
  · rw [ddGet, assocFind_assocSet_self, Option.getD_some]
    exact fun hc => (hset.mem_erase_iff.mp hc).1 rfl
  · intro s hs
    rw [ddGet, assocFind_assocSet_ne _ _ _ _ hs, ← ddGet, ddGet_ddEnsure]

/-- C6 witness: removing the edge `-1 : 1 → 2` from an intact two-node graph
returns the removed record. -/
theorem C6_remove_edge_witness :
    (remove_edge (⟨["city"], ["w"],
        [(1, ⟨[("city", 10)]⟩), (2, ⟨[("city", 20)]⟩)],
        [(-1, ⟨1, 2, [("w", 5)]⟩)], [(1, [-1])], [], []⟩ : Graph Int) (-1)).1
      = Except.ok ⟨1, 2, [("w", 5)]⟩ :=
  (C6_remove_edge _ (-1) ⟨1, 2, [("w", 5)]⟩ (by decide) (by decide)
    (by decide) (by decide)).1

/-- C7 counterexample: `add_node` with an attribute set that mismatches the
schema raises, but it has already popped the node free list: the freed
identifier 1 is discarded, an observable state change. -/
theorem C7_counterexample :
    (let g0 : Graph Int := Graph.empty ["city"] []
     let g1 := (add_node g0 [("city", 10)]).2
     let g2 := (remove_node g1 1).2
     let r := add_node g2 [("bad", 0)]
     g2.unused_node_uids = [1] ∧
       r.1 = Except.error Err.typeError ∧
       r.2.unused_node_uids = []) :=
  ⟨rfl, rfl, rfl⟩

/-- C7 (amended): a create/modify call whose attribute set mismatches the
schema raises synchronously and leaves the entity stores and the adjacency
index untouched, and `modify_node`/`modify_edge` leave the whole state
untouched; `add_node`/`add_edge`, however, have already popped the
corresponding free list, so its most recently freed identifier is discarded
(the free list becomes its `dropLast`; only when it was already empty is the
state fully unchanged). -/
theorem C7_schema_mismatch_effects {V : Type} [DecidableEq V] (g : Graph V)
    (nk ek mkN mkE : List (String × V)) (start end_ uidN uidE : Int)
    (n : Node V) (e : Edge V) (ns ne : Option Int)
    (hnk : build_record g.nodeProps nk = none)
    (hek : build_record g.edgeProps ek = none)
    (huidN : uidN > 0) (hn : assocFind g.nodes uidN = some n)
    (hmkN : replace_attrs g.nodeProps n.attrs mkN = none)
    (huidE : ¬ uidE > 0) (he : assocFind g.edges uidE = some e)
    (hmkE : replace_attrs g.edgeProps e.attrs mkE = none) :
    (add_node g nk).1 = Except.error Err.typeError ∧
      (add_node g nk).2.nodes = g.nodes ∧
      (add_node g nk).2.edges = g.edges ∧
      (add_node g nk).2.adjacency_list = g.adjacency_list ∧
      (add_node g nk).2.unused_node_uids = g.unused_node_uids.dropLast ∧
      (g.unused_node_uids = [] → (add_node g nk).2 = g) ∧
      (add_edge g start end_ ek).1 = Except.error Err.typeError ∧
      (add_edge g start end_ ek).2.nodes = g.nodes ∧
      (add_edge g start end_ ek).2.edges = g.edges ∧
      (add_edge g start end_ ek).2.adjacency_list = g.adjacency_list ∧
      (add_edge g start end_ ek).2.unused_edge_uids = g.unused_edge_uids.dropLast ∧
      (g.unused_edge_uids = [] → (add_edge g start end_ ek).2 = g) ∧
      modify_node g uidN mkN = (Except.error Err.valueError, g) ∧
      modify_edge g uidE ns ne mkE = (Except.error Err.valueError, g) := by
  have hN : add_node g nk =
      (Except.error Err.typeError,
        { g with unused_node_uids := g.unused_node_uids.dropLast }) := by
    rw [add_node, get_node_uid]
    cases hfree : g.unused_node_uids.getLast? with
    | some uid => simp [hnk]
    | none =>
      have hdl : g.unused_node_uids.dropLast = g.unused_node_uids := by
        simp [List.getLast?_eq_none_iff.mp hfree]
      simp [hnk, hdl]
  have hE : add_edge g start end_ ek =
      (Except.error Err.typeError,
        { g with unused_edge_uids := g.unused_edge_uids.dropLast }) := by
    rw [add_edge, get_edge_uid]
    cases hfree : g.unused_edge_uids.getLast? with
    | some uid => simp [hek]
    | none =>
      have hdl : g.unused_edge_uids.dropLast = g.unused_edge_uids := by
        simp [List.getLast?_eq_none_iff.mp hfree]
      simp [hek, hdl]
  have hMN : modify_node g uidN mkN = (Except.error Err.valueError, g) := by
    simp only [modify_node, if_pos huidN, hn, hmkN]
  have hME : modify_edge g uidE ns ne mkE = (Except.error Err.valueError, g) := by
    simp only [modify_edge, if_neg huidE, he, hmkE]
  rw [hN, hE, hMN, hME]
  refine ⟨rfl, rfl, rfl, rfl, rfl, ?_, rfl, rfl, rfl, rfl, rfl, ?_, rfl, rfl⟩
  · intro hfree
    have hdl : g.unused_node_uids.dropLast = g.unused_node_uids := by simp [hfree]
    rw [hdl]
  · intro hfree
    have hdl : g.unused_edge_uids.dropLast = g.unused_edge_uids := by simp [hfree]
    rw [hdl]

/-- C7 witness: a one-node, one-edge graph with schema `["city"]`/`["w"]`
and the invalid attribute set `{bad}` on each of the four operations. -/
theorem C7_schema_mismatch_effects_witness :
    (add_node (⟨["city"], ["w"],
        [(1, ⟨[("city", 10)]⟩)], [(-1, ⟨1, 1, [("w", 5)]⟩)],
        [(1, [-1])], [], []⟩ : Graph Int) [("bad", 0)]).1
      = Except.error Err.typeError :=
  (C7_schema_mismatch_effects _ [("bad", 0)] [("bad", 0)] [("bad", 0)] [("bad", 0)]
    1 1 1 (-1) ⟨[("city", 10)]⟩ ⟨1, 1, [("w", 5)]⟩ none none
    (by decide) (by decide) (by decide) (by decide) (by decide) (by decide)
    (by decide) (by decide)).1

/-- C8 counterexample: a node whose two attributes both match the supplied
predicates is yielded twice by `search_nodes` — once per matching supplied
attribute — not exactly once. -/
theorem C8_counterexample :
    (let g := (add_node (Graph.empty ["a", "b"] []) [("a", (1 : Int)), ("b", 2)]).2
     search_nodes g [("a", 1), ("b", 2)] =
       Except.ok [⟨[("a", 1), ("b", 2)]⟩, ⟨[("a", 1), ("b", 2)]⟩]) :=
  rfl

theorem filterMap_if_eq_replicate {α β : Type} (P : β → Prop) [DecidablePred P]
    (n : α) (ks : List β) :
    (ks.filterMap fun kv => if P kv then some n else none)
      = List.replicate (ks.countP fun kv => decide (P kv)) n := by
  induction ks with
  | nil => rfl
  | cons b bs ih =>
    rw [List.filterMap_cons, List.countP_cons]
    by_cases h : P b
    · simp [h, ih, List.replicate_succ]
    · simp [h, ih]

theorem scan_eq_replicate {α β : Type} (P : α → β → Prop)
    [∀ a b, Decidable (P a b)] (recs : List α) (ks : List β) :
    (recs.flatMap fun n => ks.filterMap fun kv => if P n kv then some n else none)
      = recs.flatMap fun n =>
          List.replicate (ks.countP fun kv => decide (P n kv)) n := by
  have hf : (fun n => ks.filterMap fun kv => if P n kv then some n else none)
      = fun n => List.replicate (ks.countP fun kv => decide (P n kv)) n :=
    funext fun n => filterMap_if_eq_replicate (P n) n ks
  rw [hf]

theorem mem_scan_iff {α β : Type} [DecidableEq α] (P : α → β → Prop)
    [∀ a b, Decidable (P a b)] (recs : List α) (ks : List β) (r : α) :
    (r ∈ recs.flatMap fun n =>
        List.replicate (ks.countP fun kv => decide (P n kv)) n)
      ↔ r ∈ recs ∧ ∃ kv ∈ ks, P r kv := by
  simp only [List.mem_flatMap, List.mem_replicate]
  constructor
  · rintro ⟨a, ha, hc, rfl⟩
    refine ⟨ha, ?_⟩
    by_contra hnone
    push_neg at hnone
    exact hc (List.countP_eq_zero.mpr fun kv hkv => by
      simp only [decide_eq_true_eq]
      exact hnone kv hkv)
  · rintro ⟨hr, kv, hkv, hp⟩
    refine ⟨r, hr, ?_, rfl⟩
    intro hzero
    have := List.countP_eq_zero.mp hzero kv hkv
    simp only [decide_eq_true_eq] at this
    exact this hp

/-- C8 (amended): with valid predicate names, `search_nodes`/`search_edges`
return the live records in store (insertion) order, each record repeated
once per supplied attribute whose value matches it — so a record appears at
least once exactly when some supplied predicate matches (disjunctive, not a
conjunction), and exactly once when exactly one does. -/
theorem C8_search_semantics {V : Type} [DecidableEq V] (g : Graph V)
    (kwargs : List (String × V)) (ekwargs : List (String × EVal V))
    (hk : ∀ kv ∈ kwargs, kv.1 ∈ g.nodeProps)
    (hek : ∀ kv ∈ ekwargs, kv.1 = "start" ∨ kv.1 = "end" ∨ kv.1 ∈ g.edgeProps) :
    (search_nodes g kwargs =
      Except.ok ((g.nodes.map Prod.snd).flatMap fun n =>
        List.replicate (kwargs.countP fun kv =>
          decide (getattr_node n kv.1 = some kv.2)) n)) ∧
      (∀ r, (r ∈ (g.nodes.map Prod.snd).flatMap fun n =>
          List.replicate (kwargs.countP fun kv =>
            decide (getattr_node n kv.1 = some kv.2)) n)
        ↔ r ∈ g.nodes.map Prod.snd ∧ ∃ kv ∈ kwargs, getattr_node r kv.1 = some kv.2) ∧
      (search_edges g ekwargs =
        Except.ok ((g.edges.map Prod.snd).flatMap fun e =>
          List.replicate (ekwargs.countP fun kv =>
            decide (getattr_edge e kv.1 = some kv.2)) e)) ∧
      (∀ r, (r ∈ (g.edges.map Prod.snd).flatMap fun e =>
          List.replicate (ekwargs.countP fun kv =>
            decide (getattr_edge e kv.1 = some kv.2)) e)
        ↔ r ∈ g.edges.map Prod.snd ∧ ∃ kv ∈ ekwargs, getattr_edge r kv.1 = some kv.2) := by
  refine ⟨?_, ?_, ?_, ?_⟩
  · rw [search_nodes, if_pos hk]
    exact congrArg Except.ok
      (scan_eq_replicate (fun n kv => getattr_node n kv.1 = some kv.2) _ kwargs)
  · exact fun r =>
      mem_scan_iff (fun n kv => getattr_node n kv.1 = some kv.2) _ kwargs r
  · rw [search_edges, if_pos hek]
    exact congrArg Except.ok
      (scan_eq_replicate (fun e kv => getattr_edge e kv.1 = some kv.2) _ ekwargs)
  · exact fun r =>
      mem_scan_iff (fun e kv => getattr_edge e kv.1 = some kv.2) _ ekwargs r

/-- C8 witness: on a one-node graph with attributes `a = 1, b = 2`, the scan
for `a = 1` yields the record exactly once, and the edge scan for
`start = 1` on a one-edge graph yields its record exactly once. -/
theorem C8_search_semantics_witness :
    search_nodes (⟨["a", "b"], ["w"],
        [(1, ⟨[("a", 1), ("b", 2)]⟩)], [(-1, ⟨1, 1, [("w", 5)]⟩)],
        [(1, [-1])], [], []⟩ : Graph Int) [("a", 1)]
      = Except.ok [⟨[("a", 1), ("b", 2)]⟩] := by
  have h := C8_search_semantics (⟨["a", "b"], ["w"],
      [(1, ⟨[("a", 1), ("b", 2)]⟩)], [(-1, ⟨1, 1, [("w", 5)]⟩)],
      [(1, [-1])], [], []⟩ : Graph Int) [("a", 1)] [("start", EVal.I 1)]
    (by decide) (by decide)
  rw [h.1]
  rfl

/-- C9: `get_outgoing_uids` iterates `self.adjacency_list(uid)` — it calls
the adjacency defaultdict as a function, which raises `TypeError` for every
graph and every node identifier, instead of yielding the (possibly empty)
outgoing set; `get_outgoing_edges` therefore fails identically. -/
theorem C9_outgoing_always_fails {V : Type} [DecidableEq V] (g : Graph V) (uid : Int) :
    get_outgoing_uids g uid = Except.error Err.typeError ∧
      get_outgoing_edges g uid = Except.error Err.typeError :=
  ⟨rfl, rfl⟩

/-- C10 (amended): for a live node identifier and a schema-valid subset of
attributes, `modify_node` returns the identifier and a subsequent read
returns the original record with exactly the supplied fields replaced —
field names unchanged, a mentioned field holds the supplied value, an
unmentioned field holds its old value — and nothing else in the graph
changes; the same holds for `modify_edge` provided the update leaves the
edge's `start` unchanged (a `start`-changing update raises `KeyError`
instead, see the counterexample). -/
theorem C10_modify_frame {V : Type} [DecidableEq V] (g : Graph V) (uid : Int)
    (n : Node V) (kwargs : List (String × V)) (euid : Int) (e : Edge V)
    (ekwargs : List (String × V)) (ns neo : Option Int)
    (huid : uid > 0) (hn : assocFind g.nodes uid = some n)
    (hk : ∀ kv ∈ kwargs, kv.1 ∈ g.nodeProps)
    (heuid : ¬ euid > 0) (he : assocFind g.edges euid = some e)
    (hek : ∀ kv ∈ ekwargs, kv.1 ∈ g.edgeProps)
    (hns : ns.getD e.start = e.start) :
    (modify_node g uid kwargs).1 = Except.ok uid ∧
      (∃ n', assocFind (modify_node g uid kwargs).2.nodes uid = some n' ∧
        n'.attrs.map Prod.fst = n.attrs.map Prod.fst ∧
        (∀ p, slookup n'.attrs p =
          (slookup n.attrs p).map fun v => (slookup kwargs p).getD v)) ∧
      (∀ k, k ≠ uid →
        assocFind (modify_node g uid kwargs).2.nodes k = assocFind g.nodes k) ∧
      (modify_node g uid kwargs).2.edges = g.edges ∧
      (modify_node g uid kwargs).2.adjacency_list = g.adjacency_list ∧
      (modify_node g uid kwargs).2.unused_node_uids = g.unused_node_uids ∧
      (modify_edge g euid ns neo ekwargs).1 = Except.ok euid ∧
      (∃ e', assocFind (modify_edge g euid ns neo ekwargs).2.edges euid = some e' ∧
        e'.start = e.start ∧ e'.«end» = neo.getD e.«end» ∧
        e'.attrs.map Prod.fst = e.attrs.map Prod.fst ∧
        (∀ p, slookup e'.attrs p =
          (slookup e.attrs p).map fun v => (slookup ekwargs p).getD v)) ∧
      (∀ k, k ≠ euid →
        assocFind (modify_edge g euid ns neo ekwargs).2.edges k = assocFind g.edges k) ∧
      (modify_edge g euid ns neo ekwargs).2.nodes = g.nodes ∧
      (modify_edge g euid ns neo ekwargs).2.adjacency_list = g.adjacency_list := by
  have hrepN : replace_attrs g.nodeProps n.attrs kwargs =
      some (n.attrs.map fun pv =>
        match slookup kwargs pv.1 with
        | some v => (pv.1, v)
        | none => pv) := by
    rw [replace_attrs, if_pos hk]
  have hrepE : replace_attrs g.edgeProps e.attrs ekwargs =
      some (e.attrs.map fun pv =>
        match slookup ekwargs pv.1 with
        | some v => (pv.1, v)
        | none => pv) := by
    rw [replace_attrs, if_pos hek]
  have hMN : modify_node g uid kwargs =
      (Except.ok uid, setitem_node g uid ⟨n.attrs.map fun pv =>
        match slookup kwargs pv.1 with
        | some v => (pv.1, v)
        | none => pv⟩) := by
    simp only [modify_node, if_pos huid, hn, hrepN]
  have hME : modify_edge g euid ns neo ekwargs =
      (Except.ok euid,
        { g with
          edges := assocSet g.edges euid
            (⟨ns.getD e.start, neo.getD e.«end», e.attrs.map fun pv =>
                match slookup ekwargs pv.1 with
                | some v => (pv.1, v)
                | none => pv⟩ : Edge V) }) := by
    have hset : setitem_edge g euid
        (⟨ns.getD e.start, neo.getD e.«end», e.attrs.map fun pv =>
          match slookup ekwargs pv.1 with
          | some v => (pv.1, v)
          | none => pv⟩ : Edge V) =
        (Except.ok (),
          { g with
            edges := assocSet g.edges euid
              (⟨ns.getD e.start, neo.getD e.«end», e.attrs.map fun pv =>
                  match slookup ekwargs pv.1 with
                  | some v => (pv.1, v)
                  | none => pv⟩ : Edge V) }) := by
      simp [setitem_edge, he, hns]
    rw [hns] at hset
    simp [modify_edge, if_neg heuid, he, hrepE, hns, hset]
  rw [hMN, hME]
  refine ⟨rfl, ?_, ?_, rfl, rfl, rfl, rfl, ?_, ?_, rfl, rfl⟩
  · refine ⟨_, ?_, map_fst_map_replace n.attrs kwargs, slookup_map_replace n.attrs kwargs⟩
    exact assocFind_assocSet_self _ _ _
  · intro k hkne
    exact assocFind_assocSet_ne _ _ _ _ hkne
  · refine ⟨_, assocFind_assocSet_self _ _ _, hns, rfl,
      map_fst_map_replace e.attrs ekwargs, slookup_map_replace e.attrs ekwargs⟩
  · intro k hkne
    exact assocFind_assocSet_ne _ _ _ _ hkne

/-- C10 witness: modifying node 1's `city` and edge `-1`'s `w` (with `start`
untouched) succeeds on a concrete two-node graph. -/
theorem C10_modify_frame_witness :
    ((modify_node (⟨["city"], ["w"],
        [(1, ⟨[("city", 10)]⟩), (2, ⟨[("city", 20)]⟩)],
        [(-1, ⟨1, 2, [("w", 5)]⟩)], [(1, [-1])], [], []⟩ : Graph Int)
        1 [("city", 99)]).1 = Except.ok 1) ∧
      ((modify_edge (⟨["city"], ["w"],
        [(1, ⟨[("city", 10)]⟩), (2, ⟨[("city", 20)]⟩)],
        [(-1, ⟨1, 2, [("w", 5)]⟩)], [(1, [-1])], [], []⟩ : Graph Int)
        (-1) none none [("w", 6)]).1 = Except.ok (-1)) := by
  have h := C10_modify_frame
    (⟨["city"], ["w"],
      [(1, ⟨[("city", 10)]⟩), (2, ⟨[("city", 20)]⟩)],
      [(-1, ⟨1, 2, [("w", 5)]⟩)], [(1, [-1])], [], []⟩ : Graph Int)
    1 ⟨[("city", 10)]⟩ [("city", 99)] (-1) ⟨1, 2, [("w", 5)]⟩ [("w", 6)]
    none none (by decide) (by decide) (by decide) (by decide) (by decide)
    (by decide) (by decide)
  exact ⟨h.1, h.2.2.2.2.2.2.1⟩

/-- C10 counterexample: for the live edge `-1 : 1 → 2` and the schema-valid
update `start := 2`, `modify_edge` raises `KeyError` and a subsequent read
returns the original record — the supplied `start` field is not replaced. -/
theorem C10_counterexample :
    (let g0 : Graph Int := Graph.empty [] ["w"]
     let g1 := (add_node g0 []).2
     let g2 := (add_node g1 []).2
     let g3 := (add_edge g2 1 2 [("w", 9)]).2
     let r := modify_edge g3 (-1) (some 2) none []
     r.1 = Except.error Err.keyError ∧
       assocFind r.2.edges (-1) = some ⟨1, 2, [("w", 9)]⟩) :=
  ⟨rfl, rfl⟩

end Graphine
